import Mathlib

/-! Shallow embedding of the Flightdeck feature-usage scanner and compliance
    engine (the core scanner of this repository). JS numbers are modelled as
    exact rationals, JS objects keyed by strings as insertion-ordered
    association lists, and thrown JS exceptions as Except.error. The external
    parsers (babel, postcss, parse5) and the browserslist expansion are
    parameters of the scan environment: the scanner only consumes their
    outputs. -/

namespace Flightdeck

/-- Severity of a feature usage (source: type Severity). -/
inductive Severity where
  | info
  | warn
  | error
deriving DecidableEq, Repr

/-- Baseline status of a feature (source: type FeatureStatus). -/
inductive FeatureStatus where
  | widely
  | newly
  | none
deriving DecidableEq, Repr

/-- Insertion-ordered association list, modelling a JS object keyed by
    strings (string keys keep insertion order in JS). -/
abbrev AList (α : Type) := List (String × α)

/-- Property lookup obj[k] on a JS object. -/
def alook {α : Type} : AList α → String → Option α
  | [], _ => Option.none
  | p :: t, k => if p.1 = k then Option.some p.2 else alook t k

/-- Property assignment obj[k] = v: updates the existing binding in place, or
    appends a new key at the end (JS insertion order for non-numeric keys). -/
def aset {α : Type} : AList α → String → α → AList α
  | [], k, v => [(k, v)]
  | p :: t, k, v => if p.1 = k then (k, v) :: t else p :: aset t k v

/-- JS truthiness of a possibly-missing string property: undefined and the
    empty string are falsy, every other string is truthy. -/
def truthyStr : Option String → Bool
  | Option.some s => s ≠ ""
  | Option.none => false

/-! Exact rational arithmetic in kernel-computable form. The library addition,
    multiplication and division on ℚ are irreducible by design; the scanner
    is defined over the following equivalents (proved equal to the library
    operations in the lemmas qadd_eq, qmul_eq, qdiv_eq, qsum_eq below) so
    that concrete runs evaluate inside the kernel. -/

/-- Rational addition: the same value as a + b. -/
def qadd (a b : ℚ) : ℚ := mkRat (a.num * b.den + b.num * a.den) (a.den * b.den)

/-- Rational multiplication: the same value as a * b. -/
def qmul (a b : ℚ) : ℚ := mkRat (a.num * b.num) (a.den * b.den)

/-- Rational division: the same value as a / b (division by zero gives 0). -/
def qdiv (a b : ℚ) : ℚ := Rat.divInt (a.num * b.den) (a.den * b.num)

/-- Sum of a list of rationals: the same value as List.sum. -/
def qsum (l : List ℚ) : ℚ := l.foldr qadd 0

/-- One half. -/
def halfQ : ℚ := mkRat 1 2

/-- Math.round on exact rationals: floor(x + 1/2) (JS rounds half toward
    positive infinity). -/
def jsRound (q : ℚ) : ℤ := ⌊qadd q halfQ⌋

/-- String.prototype.includes: the needle occurs as a contiguous substring. -/
def strIncludes (s sub : String) : Bool :=
  s.toList.tails.any (fun t => sub.toList.isPrefixOf t)

/-- ASCII whitespace matched by the regex class for whitespace (the unicode
    spaces JS also accepts do not occur in the inputs considered here). -/
def jsWsChar (c : Char) : Bool :=
  c = ' ' || c = '\t' || c = '\n' || c = '\r' || c = '\x0b' || c = '\x0c'

def dropWsL (cs : List Char) : List Char := cs.dropWhile jsWsChar

/-- The regex word-character class [A-Za-z0-9_]. -/
def wordChar (c : Char) : Bool := c.isAlpha || c.isDigit || c = '_'

/-- The class of word characters together with the dollar sign. -/
def wordDollar (c : Char) : Bool := wordChar c || c = '$'

/-- The class [A-Za-z0-9_.]. -/
def identDotChar (c : Char) : Bool := wordChar c || c = '.'

/-- Single-quote character. -/
def squote : Char := Char.ofNat 39

/-- Left curly brace character. -/
def lbrace : Char := Char.ofNat 123

/-- Right curly brace character. -/
def rbrace : Char := Char.ofNat 125

def isQuote (c : Char) : Bool := c = squote || c = '"'

/-- Tail of the guard regex after the quoted token: an identifier-with-dots
    run, optional whitespace, then a closing parenthesis. -/
def matchGuardClose (cs : List Char) : Bool :=
  let x := cs.takeWhile identDotChar
  let r := cs.dropWhile identDotChar
  !x.isEmpty &&
    (match dropWsL r with
     | ')' :: _ => true
     | _ => false)

/-- The literal word in, surrounded by optional whitespace, then the closing
    part of the guard regex. -/
def matchGuardIn (cs : List Char) : Bool :=
  match dropWsL cs with
  | 'i' :: 'n' :: r => matchGuardClose (dropWsL r)
  | _ => false

/-- A quoted word-or-dollar token followed by the in-expression part. -/
def matchGuardStr (cs : List Char) : Bool :=
  match cs with
  | q :: r =>
    isQuote q &&
      (let w := r.takeWhile wordDollar
       let r2 := r.dropWhile wordDollar
       !w.isEmpty &&
         (match r2 with
          | q2 :: r3 => isQuote q2 && matchGuardIn r3
          | [] => false))
  | [] => false

/-- After the literal if: optional whitespace, an opening parenthesis,
    optional whitespace, then the quoted guard string. -/
def matchAfterIf (cs : List Char) : Bool :=
  match dropWsL cs with
  | '(' :: r => matchGuardStr (dropWsL r)
  | _ => false

/-- One attempt of the feature-detection guard regex at a position: a word
    boundary, the literal if, then the rest of the pattern. -/
def progIfHere (prev : Option Char) (cs : List Char) : Bool :=
  (match prev with
   | Option.some c => !wordChar c
   | Option.none => true) &&
  (match cs with
   | 'i' :: 'f' :: r => matchAfterIf r
   | _ => false)

/-- Scan every position of the text for the feature-detection guard. -/
def progIfScan : Option Char → List Char → Bool
  | prev, [] => progIfHere prev []
  | prev, c :: r => progIfHere prev (c :: r) || progIfScan (Option.some c) r

/-- Close of the try/catch regex: a right brace, optional whitespace, the
    literal catch, optional whitespace, an opening parenthesis. -/
def matchCatchClose (cs : List Char) : Bool :=
  match cs with
  | c :: r =>
    c = rbrace &&
      (match dropWsL r with
       | 'c' :: 'a' :: 't' :: 'c' :: 'h' :: r2 =>
         (match dropWsL r2 with
          | '(' :: _ => true
          | _ => false)
       | _ => false)
  | [] => false

/-- One attempt of the try/catch regex at a position: the literal try,
    optional whitespace, a left brace, at least one further character, then
    the catch part at some later position. -/
def matchTryHere (cs : List Char) : Bool :=
  match cs with
  | 't' :: 'r' :: 'y' :: r =>
    (match dropWsL r with
     | c :: body => c = lbrace && (body.drop 1).tails.any matchCatchClose
     | [] => false)
  | _ => false

/-- Progressive-enhancement heuristic (source isProgressiveJS): either the
    feature-detection guard regex or the try/catch regex matches. -/
def isProgressiveJS (context : String) : Bool :=
  progIfScan Option.none context.toList || context.toList.tails.any matchTryHere

/-- Whole-file supports-wrapper detection (source hasSupportsWrapper): the
    literal at-supports word followed by optional whitespace and an opening
    parenthesis, anywhere in the text. -/
def matchSupportsHere (cs : List Char) : Bool :=
  match cs with
  | '@' :: 's' :: 'u' :: 'p' :: 'p' :: 'o' :: 'r' :: 't' :: 's' :: r =>
    (match dropWsL r with
     | '(' :: _ => true
     | _ => false)
  | _ => false

def hasSupportsWrapper (cssText : String) : Bool :=
  cssText.toList.tails.any matchSupportsHere

/-- Static feature metadata (source: interface FeatureMeta). -/
structure FeatureMeta where
  id : String
  title : String
  status : FeatureStatus
  mdn : Option String
  browsers : AList String
deriving DecidableEq, Repr

/-- One concrete occurrence of a feature usage (source: interface Hit). -/
structure Hit where
  file : String
  line : ℤ
  column : ℤ
  snippet : String
deriving DecidableEq, Repr

/-- Accumulated usage of one feature (source: interface FeatureUsage). The
    optional minCoverage field exists on the interface but is never assigned
    by the scanner. -/
structure FeatureUsage where
  id : String
  count : ℕ
  hits : List Hit
  status : FeatureStatus
  coverage : ℤ
  browsers : AList String
  mdn : Option String
  severity : Severity
  minCoverage : Option ℚ
deriving DecidableEq, Repr

/-- Per-feature override (source: FlightdeckConfig.overrides values). -/
structure Override where
  minCoverage : Option ℚ
  severity : Option Severity
deriving DecidableEq, Repr

/-- Scanner configuration (source: interface FlightdeckConfig). -/
structure FlightdeckConfig where
  profile : String
  baselineYear : ℤ
  browserslist : Option String
  analyticsCsv : Option String
  coverageBudget : ℚ
  treatNewlyAsViolation : Bool
  ignore : List String
  overrides : AList Override
deriving DecidableEq, Repr

abbrev Usages := AList FeatureUsage

/-- Scan summary block (source: ScanResult.summary). -/
structure Summary where
  violations : List String
  warnings : List String
  pass : Bool
  coverageBudget : ℚ
  achieved : ℤ
deriving DecidableEq, Repr

/-- Final scan report (source: interface ScanResult). -/
structure ScanResult where
  features : Usages
  summary : Summary
deriving DecidableEq, Repr

/-- One row of the analytics loop in estimateCoverage: accumulate the total
    share and the covered share. -/
def covStep (minB : AList String) (acc : ℚ × ℚ) (p : String × ℚ) : ℚ × ℚ :=
  (qadd acc.1 p.2, if truthyStr (alook minB p.1) then qadd acc.2 p.2 else acc.2)

/-- Split a character list on a separator character (the JS
    String.prototype.split with a one-character separator). -/
def splitOnChar (sep : Char) : List Char → List (List Char)
  | [] => [[]]
  | c :: r =>
    match splitOnChar sep r with
    | [] => [[]]
    | h :: t => if c = sep then [] :: h :: t else (c :: h) :: t

/-- ASCII lowercasing (String.prototype.toLowerCase; the browser names
    involved are ASCII). -/
def lowerStr (s : String) : String := (s.toList.map Char.toLower).asString

/-- First word of a browserslist selection entry, lowercased. -/
def browserName (s : String) : String :=
  lowerStr (((splitOnChar ' ' s.toList).headD []).asString)

/-- Insertion-ordered set construction over strings. -/
def insertUniq (l : List String) (s : String) : List String :=
  if s ∈ l then l else l ++ [s]

def distinctNames (ss : List String) : List String := ss.foldl insertUniq []

/-- estimateCoverage (source lines 74-89). With a non-empty audience
    distribution, blend shares of the browsers whose name is a truthy key of
    the min-version map; otherwise fall back to the distinct browser names of
    the browserslist expansion bl. -/
def estimateCoverage (bl : String → List String) (minB : AList String)
    (analytics : AList ℚ) (blq : Option String) : ℤ :=
  if analytics ≠ [] then
    let tc := analytics.foldl (covStep minB) (0, 0)
    if tc.1 ≠ 0 then jsRound (qmul (qdiv tc.2 tc.1) 100) else 0
  else
    let sel := distinctNames ((bl (blq.getD ">0.5%, not dead")).map browserName)
    let haveCnt := (sel.filter (fun b => truthyStr (alook minB b))).length
    if sel.length ≠ 0 then
      jsRound (qmul (qdiv (haveCnt : ℚ) (sel.length : ℚ)) 100)
    else 0

/-- A source file handed to the scanner: its path and its text. -/
structure SourceFile where
  path : String
  text : String
deriving DecidableEq, Repr

/-- One script AST node event as seen by the babel traversal: key is the
    alias-table lookup text the visitor computes for the node (the dotted
    member path, or the identifier name), with the node start position. -/
structure JsNode where
  key : String
  line : ℤ
  column : ℤ
deriving DecidableEq, Repr

/-- One postcss rule, with the pseudo-class values its parsed selector
    contains and its source start position. -/
structure CssRule where
  selector : String
  pseudos : List String
  line : ℤ
  column : ℤ
deriving DecidableEq, Repr

/-- One postcss declaration with its source start position. -/
structure CssDecl where
  prop : String
  value : String
  line : ℤ
  column : ℤ
deriving DecidableEq, Repr

/-- Output of the postcss parse of one stylesheet: the rules (walked first)
    and the declarations (walked second). -/
structure CssAst where
  rules : List CssRule
  decls : List CssDecl
deriving DecidableEq, Repr

/-- One markup probe event of the parse5 visit: a tag or attribute name
    checked against the alias table, with its source position. -/
structure HtmlTok where
  name : String
  line : ℤ
  column : ℤ
deriving DecidableEq, Repr

/-- Scan environment: the static tables loaded from the data files and the
    external parsers. parseJs and parseCss return an error when the parser
    throws on malformed input; parse5 never throws. -/
structure ScanEnv where
  features : AList FeatureMeta
  aliases : AList String
  parseJs : String → Except String (List JsNode)
  parseCss : String → Except String CssAst
  parseHtml : String → List HtmlTok
  bl : String → List String

/-- addHit (source lines 101-109): a no-op when the id is not a key of the
    feature table, otherwise create-or-update the usage entry, bump its count
    and append the hit. -/
def addHit (features : AList FeatureMeta) (usages : Usages) (id file : String)
    (line column : ℤ) (snippet : String) : Usages :=
  match alook features id with
  | Option.none => usages
  | Option.some meta =>
    let u0 := (alook usages id).getD
      { id := id, count := 0, hits := [], status := meta.status, coverage := 0,
        browsers := meta.browsers, mdn := meta.mdn, severity := Severity.info,
        minCoverage := Option.none }
    let u1 := { u0 with
                  count := u0.count + 1,
                  hits := u0.hits ++ [{ file := file, line := line,
                                        column := column, snippet := snippet }] }
    aset usages id u1

/-- addHit called with a possibly-undefined id (the CSS branch passes the raw
    alias lookup): with an undefined key the feature lookup misses and addHit
    is a no-op. -/
def addHitU (features : AList FeatureMeta) (usages : Usages) (id : Option String)
    (file : String) (line column : ℤ) (snippet : String) : Usages :=
  match id with
  | Option.some i => addHit features usages i file line column snippet
  | Option.none => usages

/-- The assignment of warn to usages[id].severity after a progressive guard
    match: throws a TypeError when the entry does not exist, which happens
    exactly when addHit was a no-op because the id is missing from the
    feature table. -/
def setSevWarn (usages : Usages) (id : String) : Except String Usages :=
  match alook usages id with
  | Option.some u => Except.ok (aset usages id { u with severity := Severity.warn })
  | Option.none =>
    Except.error "TypeError: Cannot set properties of undefined (setting severity)"

/-- JS array index with an integer index: negative indexes read undefined. -/
def jsIndex {α : Type} (l : List α) (i : ℤ) : Option α :=
  if i < 0 then Option.none else l.get? i.toNat

/-- String.prototype.trim (ASCII whitespace; the unicode spaces JS also
    strips do not occur in the inputs considered here). -/
def jsTrim (s : String) : String :=
  (((s.toList.dropWhile jsWsChar).reverse.dropWhile jsWsChar).reverse).asString

/-- The snippet line: split the text on newlines, index by line - 1, trim,
    defaulting to the empty string. -/
def jsLineText (code : String) (line : ℤ) : String :=
  ((jsIndex (splitOnChar '\n' code.toList) (line - 1)).map
    (fun l => jsTrim l.asString)).getD ""

/-- Script-branch visitor action for one AST node (source lines 131-152):
    resolve the node key through the alias table, record the hit, and soften
    the severity to warn when the line matches the progressive-guard
    heuristic. -/
def jsStep (env : ScanEnv) (f : SourceFile) (usages : Usages) (n : JsNode) :
    Except String Usages :=
  match alook env.aliases n.key with
  | Option.some id =>
    let lineText := jsLineText f.text n.line
    let us1 := addHit env.features usages id f.path n.line n.column lineText
    if isProgressiveJS lineText then setSevWarn us1 id else Except.ok us1
  | Option.none => Except.ok usages

/-- Style-branch rule walker (source lines 158-170): a hit for the has alias
    for every pseudo value containing the has token, then a hit for the
    dialog alias when the selector text contains dialog. -/
def cssRuleStep (env : ScanEnv) (f : SourceFile) (usages : Usages) (r : CssRule) :
    Usages :=
  let us1 := r.pseudos.foldl
    (fun us ps =>
      if strIncludes ps ":has" then
        addHitU env.features us (alook env.aliases ":has") f.path r.line r.column
          r.selector
      else us) usages
  if strIncludes r.selector "dialog" then
    addHitU env.features us1 (alook env.aliases "dialog") f.path r.line r.column
      r.selector
  else us1

/-- Style-branch declaration walker (source lines 171-176): a hit for the
    popover alias when the property or the value contains popover. -/
def cssDeclStep (env : ScanEnv) (f : SourceFile) (usages : Usages) (d : CssDecl) :
    Usages :=
  if strIncludes d.prop "popover" || strIncludes d.value "popover" then
    addHitU env.features usages (alook env.aliases "popover") f.path d.line d.column
      (d.prop ++ ": " ++ d.value)
  else usages

/-- Supports-wrapper downgrade (source lines 177-182): every usage with a hit
    in this file whose severity is still info is softened to warn. -/
def softenFile (usages : Usages) (file : String) : Usages :=
  usages.map (fun p =>
    if p.2.hits.any (fun h => decide (h.file = file)) then
      (if p.2.severity = Severity.info then
        (p.1, { p.2 with severity := Severity.warn })
       else p)
    else p)

/-- Markup-branch visitor action for one tag or attribute name probe
    (source lines 185-204). -/
def htmlStep (env : ScanEnv) (f : SourceFile) (usages : Usages) (t : HtmlTok) :
    Usages :=
  match alook env.aliases t.name with
  | Option.some id =>
    addHit env.features usages id f.path t.line t.column (jsLineText f.text t.line)
  | Option.none => usages

/-- Anchored suffix test (the regexes on file names are all end-anchored). -/
def strEndsWith (p suffix : String) : Bool :=
  suffix.toList.reverse.isPrefixOf p.toList.reverse

/-- The script extension test (the dotted m, j or t, s, optional x family). -/
def isScriptPath (p : String) : Bool :=
  [".js", ".jsx", ".ts", ".tsx", ".mjs", ".mjsx", ".mts", ".mtsx"].any
    (fun e => strEndsWith p e)

def isCssPath (p : String) : Bool := strEndsWith p ".css"

def isHtmlPath (p : String) : Bool := strEndsWith p ".html" || strEndsWith p ".htm"

/-- Per-file extraction dispatch (source lines 125-206). A parser error in the
    script or style branch propagates: there is no try/catch around the
    parsers. -/
def processFile (env : ScanEnv) (usages : Usages) (f : SourceFile) :
    Except String Usages :=
  if isScriptPath f.path then
    match env.parseJs f.text with
    | Except.error e => Except.error e
    | Except.ok nodes => nodes.foldlM (jsStep env f) usages
  else if isCssPath f.path then
    match env.parseCss f.text with
    | Except.error e => Except.error e
    | Except.ok ast =>
      let wrapped := hasSupportsWrapper f.text
      let us1 := ast.rules.foldl (cssRuleStep env f) usages
      let us2 := ast.decls.foldl (cssDeclStep env f) us1
      Except.ok (if wrapped then softenFile us2 f.path else us2)
  else if isHtmlPath f.path then
    Except.ok ((env.parseHtml f.text).foldl (htmlStep env f) usages)
  else Except.ok usages

/-- The extraction phase: the sequential for-loop over the collected files. -/
def extractAll (env : ScanEnv) (files : List SourceFile) : Except String Usages :=
  files.foldlM (processFile env) []

/-- Severity rules of the classification loop (source lines 219-223) for a
    feature that is not ignored, starting from the severity accumulated
    during extraction. Note the JS truthiness guards: an override severity is
    a non-empty string and is always truthy when present, while a minCoverage
    of zero is falsy and disables the minimum-coverage rule. -/
def classifySeverity (cfg : FlightdeckConfig) (status : FeatureStatus)
    (ov : Option Override) (coverage : ℤ) (sev : Severity) : Severity :=
  let s1 :=
    if status = FeatureStatus.none then Severity.error
    else if status = FeatureStatus.newly then
      (if cfg.treatNewlyAsViolation then Severity.error
       else if sev = Severity.info then Severity.warn else sev)
    else sev
  let s2 :=
    match ov.bind (fun o => o.severity) with
    | Option.some s => s
    | Option.none => s1
  let s3 :=
    match ov.bind (fun o => o.minCoverage) with
    | Option.some m => if m ≠ 0 ∧ (coverage : ℚ) < m then Severity.error else s2
    | Option.none => s2
  if (coverage : ℚ) < cfg.coverageBudget then
    (if s3 = Severity.error then Severity.error else Severity.warn)
  else s3

/-- One iteration of the finalize loop body for the entry (id, u) (source
    lines 210-223): compute the coverage, then the severity (ignored features
    are forced to info and skip the remaining rules). Returns Option.none
    when the feature id is missing from the table, where the JS code throws
    a TypeError dereferencing the missing metadata. -/
def classifyEntry (env : ScanEnv) (cfg : FlightdeckConfig) (analytics : AList ℚ)
    (id : String) (u : FeatureUsage) : Option FeatureUsage :=
  match alook env.features id with
  | Option.none => Option.none
  | Option.some feature =>
    let coverage := estimateCoverage env.bl feature.browsers analytics cfg.browserslist
    let u1 := { u with coverage := coverage }
    let sev := classifySeverity cfg feature.status (alook cfg.overrides id)
      coverage u1.severity
    Option.some
      (if id ∈ cfg.ignore then { u1 with severity := Severity.info }
       else { u1 with severity := sev })

/-- One iteration of the finalize loop including the aggregation: ignored
    features are classified but skip the coverage aggregation (the continue
    in the source). -/
def finStep (env : ScanEnv) (cfg : FlightdeckConfig) (analytics : AList ℚ)
    (acc : Usages × ℤ × ℕ) (p : String × FeatureUsage) :
    Except String (Usages × ℤ × ℕ) :=
  match classifyEntry env cfg analytics p.1 p.2 with
  | Option.none =>
    Except.error "TypeError: Cannot read properties of undefined (reading browsers)"
  | Option.some u =>
    if p.1 ∈ cfg.ignore then Except.ok (acc.1 ++ [(p.1, u)], acc.2.1, acc.2.2)
    else Except.ok (acc.1 ++ [(p.1, u)],
                    acc.2.1 + min 100 u.coverage * (u.count : ℤ),
                    acc.2.2 + u.count)

/-- Assembly of the final report from the classified entries and the
    aggregated coverage (source lines 229-239). -/
def assemble (cfg : FlightdeckConfig) (feats : Usages) (totCovered : ℤ)
    (totCount : ℕ) : ScanResult :=
  let achieved : ℤ :=
    if totCount ≠ 0 then jsRound (qdiv (totCovered : ℚ) (totCount : ℚ)) else 100
  let violations :=
    (feats.filter (fun p => decide (p.2.severity = Severity.error))).map (fun p => p.1)
  let warnings :=
    (feats.filter (fun p => decide (p.2.severity = Severity.warn))).map (fun p => p.1)
  { features := feats,
    summary :=
      { violations := violations, warnings := warnings,
        pass := violations.isEmpty && decide ((achieved : ℚ) ≥ cfg.coverageBudget),
        coverageBudget := cfg.coverageBudget, achieved := achieved } }

/-- The finalize phase (source lines 208-239): classify every accumulated
    usage, aggregate the coverage, and assemble the summary. -/
def finalize (env : ScanEnv) (cfg : FlightdeckConfig) (analytics : AList ℚ)
    (usages : Usages) : Except String ScanResult :=
  match usages.foldlM (finStep env cfg analytics) (([] : Usages), (0 : ℤ), (0 : ℕ)) with
  | Except.error e => Except.error e
  | Except.ok (feats, totCovered, totCount) =>
    Except.ok (assemble cfg feats totCovered totCount)

/-- scanProject: extraction over all collected files, then finalize. The
    analytics argument is the parsed audience distribution (the output of
    parseAnalyticsCsv). -/
def scanProject (env : ScanEnv) (cfg : FlightdeckConfig) (analytics : AList ℚ)
    (files : List SourceFile) : Except String ScanResult :=
  match extractAll env files with
  | Except.error e => Except.error e
  | Except.ok usages => finalize env cfg analytics usages

/-- Observer: the result when the scan did not throw. -/
def resOf (r : Except String ScanResult) : Option ScanResult :=
  match r with
  | Except.ok res => Option.some res
  | Except.error _ => Option.none

/-- Observer: the error message when the scan threw. -/
def errOf (r : Except String ScanResult) : Option String :=
  match r with
  | Except.ok _ => Option.none
  | Except.error e => Option.some e

/-- Observer: the recorded usage of one feature of a scan outcome. -/
def featOf (r : Except String ScanResult) (id : String) : Option FeatureUsage :=
  (resOf r).bind (fun res => alook res.features id)

/-- Observer: the recorded severity of one feature of a scan outcome. -/
def sevOf (r : Except String ScanResult) (id : String) : Option Severity :=
  (featOf r id).map (fun u => u.severity)

/-! Specification-side formulas, written from the words of the specification
    (not from the code), for comparison against the engine. -/

/-- Contribution of one classified entry to the coverage numerator: ignored
    features contribute nothing, every other feature contributes
    min(100, coverage) times its hit count. -/
def contribC (cfg : FlightdeckConfig) (p : String × FeatureUsage) : ℤ :=
  if p.1 ∈ cfg.ignore then 0 else min 100 p.2.coverage * (p.2.count : ℤ)

/-- Contribution of one classified entry to the coverage denominator. -/
def contribN (cfg : FlightdeckConfig) (p : String × FeatureUsage) : ℕ :=
  if p.1 ∈ cfg.ignore then 0 else p.2.count

/-- The achieved formula over the non-ignored features with at least one hit:
    round of the weighted coverage sum over the count sum, or 100 when there
    is nothing to aggregate (qdiv is exact rational division, lemma qdiv_eq). -/
def achievedNonIgnored (cfg : FlightdeckConfig) (feats : Usages) : ℤ :=
  let tc := (feats.map (contribC cfg)).sum
  let tn := (feats.map (contribN cfg)).sum
  if tn ≠ 0 then jsRound (qdiv (tc : ℚ) (tn : ℚ)) else 100

/-- Follows the claim C3 words: the achieved formula taken over every feature
    with at least one hit, including ignored features. -/
def achievedSpecAll (feats : Usages) : ℤ :=
  let l := feats.filter (fun p => decide (1 ≤ p.2.count))
  let tn := (l.map (fun p => p.2.count)).sum
  let tc := (l.map (fun p => min 100 p.2.coverage * (p.2.count : ℤ))).sum
  if tn ≠ 0 then jsRound (qdiv (tc : ℚ) (tn : ℚ)) else 100

/-- Follows the claim C4 words: round of 100 times the summed shares of the
    browsers present in the min-version map over the summed shares, and 0
    when the total share is zero (qsum, qdiv, qmul are exact rational sum,
    division and product: lemmas qsum_eq, qdiv_eq, qmul_eq). -/
def coverageSpec (minB : AList String) (analytics : AList ℚ) : ℤ :=
  let total := qsum (analytics.map (fun p => p.2))
  let covered :=
    qsum ((analytics.filter (fun p => (alook minB p.1).isSome)).map (fun p => p.2))
  if total = 0 then 0 else jsRound (qdiv (qmul 100 covered) total)

/-- Lexicographic strict order on character lists (the usual path order). -/
def charListLt : List Char → List Char → Bool
  | [], [] => false
  | [], _ :: _ => true
  | _ :: _, [] => false
  | a :: as, b :: bs =>
    if a.toNat < b.toNat then true
    else if b.toNat < a.toNat then false
    else charListLt as bs

/-- Lexicographic strict order on strings. -/
def strLt (a b : String) : Bool := charListLt a.toList b.toList

/-- Follows the claim C7 words: the lexicographic (file path, line, column)
    order on hits. -/
def hitLeKey (a b : Hit) : Bool :=
  strLt a.file b.file ||
    (decide (a.file = b.file) &&
      (decide (a.line < b.line) ||
        (decide (a.line = b.line) && decide (a.column ≤ b.column))))

/-- A hit list sorted by the (file path, line, column) key. -/
def sortedHits : List Hit → Bool
  | [] => true
  | [_] => true
  | a :: b :: t => hitLeKey a b && sortedHits (b :: t)

/-! Concrete scan scenarios used to instantiate and to refute the claims. -/

/-- An empty browserslist expansion (the fallback branch is unused when an
    audience distribution is supplied). -/
def blEmpty : String → List String := fun _ => []

/-- The default configuration shape of the scanner (loadConfig defaults). -/
def cfgBase : FlightdeckConfig :=
  { profile := "moderate", baselineYear := 2024, browserslist := Option.none,
    analyticsCsv := Option.none, coverageBudget := 95,
    treatNewlyAsViolation := false, ignore := [], overrides := [] }

/-- A feature of Baseline status none with a chrome minimum version. -/
def metaF1None : FeatureMeta :=
  { id := "f1", title := "Feature One", status := FeatureStatus.none,
    mdn := Option.none, browsers := [("chrome", "105")] }

/-- A widely available feature with a chrome minimum version. -/
def metaF1Widely : FeatureMeta :=
  { id := "f1", title := "Feature One", status := FeatureStatus.widely,
    mdn := Option.none, browsers := [("chrome", "105")] }

/-- A widely available feature with an empty min-version map (coverage 0
    under any distribution). -/
def metaF1NoBrowsers : FeatureMeta :=
  { id := "f1", title := "Feature One", status := FeatureStatus.widely,
    mdn := Option.none, browsers := [] }

/-- A scan environment whose script parser yields one identifier node
    aliased to f1. -/
def jsEnv (m : FeatureMeta) : ScanEnv :=
  { features := [("f1", m)], aliases := [("x", "f1")],
    parseJs := fun _ => Except.ok [{ key := "x", line := 1, column := 0 }],
    parseCss := fun _ => Except.ok { rules := [], decls := [] },
    parseHtml := fun _ => [], bl := blEmpty }

/-- A one-line script file whose only token is the aliased identifier. -/
def fileX : SourceFile := { path := "a.js", text := "x" }

/-- The audience distribution of a single fully-covering chrome row. -/
def anChrome : AList ℚ := [("chrome", 100)]

/-- The usage entry of the scan of fileX against a status-none feature with
    full coverage and no overrides. -/
def uC1W : FeatureUsage :=
  { id := "f1", count := 1,
    hits := [{ file := "a.js", line := 1, column := 0, snippet := "x" }],
    status := FeatureStatus.none, coverage := 100,
    browsers := [("chrome", "105")], mdn := Option.none,
    severity := Severity.error, minCoverage := Option.none }

/-- The report of that scan. -/
def resC1W : ScanResult :=
  { features := [("f1", uC1W)],
    summary := { violations := ["f1"], warnings := [], pass := false,
                 coverageBudget := 95, achieved := 100 } }

/-- Configuration with an info severity override for f1. -/
def cfgC1X : FlightdeckConfig :=
  { cfgBase with overrides :=
      [("f1", { minCoverage := Option.none, severity := Option.some Severity.info })] }

/-- Configuration ignoring f1. -/
def cfgC5 : FlightdeckConfig := { cfgBase with ignore := ["f1"] }

/-- The usage entry of the ignored-feature scan. -/
def uC5W : FeatureUsage := { uC1W with severity := Severity.info }

/-- The report of the ignored-feature scan. -/
def resC5W : ScanResult :=
  { features := [("f1", uC5W)],
    summary := { violations := [], warnings := [], pass := true,
                 coverageBudget := 95, achieved := 100 } }

/-- Configuration with both a minCoverage 50 and an info severity override. -/
def cfgC6W : FlightdeckConfig :=
  { cfgBase with overrides :=
      [("f1", { minCoverage := Option.some 50, severity := Option.some Severity.info })] }

/-- The override record of cfgC6W. -/
def ovC6W : Override :=
  { minCoverage := Option.some 50, severity := Option.some Severity.info }

/-- The usage entry of the minCoverage-override scan: coverage 0 below the
    override minimum of 50, severity re-elevated to error. -/
def uC6W : FeatureUsage :=
  { id := "f1", count := 1,
    hits := [{ file := "a.js", line := 1, column := 0, snippet := "x" }],
    status := FeatureStatus.widely, coverage := 0, browsers := [],
    mdn := Option.none, severity := Severity.error, minCoverage := Option.none }

/-- The report of the minCoverage-override scan. -/
def resC6W : ScanResult :=
  { features := [("f1", uC6W)],
    summary := { violations := ["f1"], warnings := [], pass := false,
                 coverageBudget := 95, achieved := 0 } }

/-- Configuration with a minCoverage 0 and an info severity override for f1
    (the zero is falsy in JS). -/
def cfgC6X : FlightdeckConfig :=
  { cfgBase with overrides :=
      [("f1", { minCoverage := Option.some 0, severity := Option.some Severity.info })] }

/-- An audience distribution with a negative chrome share. -/
def anNegChrome : AList ℚ := [("chrome", -50), ("firefox", 100)]

/-- An audience distribution with a negative firefox share. -/
def anNegFirefox : AList ℚ := [("chrome", 70), ("firefox", -30)]

/-- The report of the empty-directory scan. -/
def resC3W : ScanResult :=
  { features := [],
    summary := { violations := [], warnings := [], pass := true,
                 coverageBudget := 95, achieved := 100 } }

/-- A scan environment whose script parser fails on the text BAD and succeeds
    elsewhere. -/
def envC2 : ScanEnv :=
  { features := [("f1", metaF1Widely)], aliases := [("x", "f1")],
    parseJs := fun s =>
      if s = "BAD" then Except.error "SyntaxError: Unexpected token"
      else Except.ok [{ key := "x", line := 1, column := 0 }],
    parseCss := fun _ => Except.ok { rules := [], decls := [] },
    parseHtml := fun _ => [], bl := blEmpty }

/-- A malformed script file followed by a well-formed one. -/
def filesC2 : List SourceFile :=
  [{ path := "bad.js", text := "BAD" }, { path := "a.js", text := "x" }]

/-- A scan environment whose style parser yields one has-pseudo rule. -/
def envC7 : ScanEnv :=
  { features := [("f1", metaF1Widely)], aliases := [(":has", "f1")],
    parseJs := fun _ => Except.ok [],
    parseCss := fun _ => Except.ok
      { rules := [{ selector := ".card:has(button)", pseudos := [":has"],
                    line := 1, column := 1 }],
        decls := [] },
    parseHtml := fun _ => [], bl := blEmpty }

/-- Two stylesheets enumerated in reverse lexicographic path order. -/
def filesC7 : List SourceFile :=
  [{ path := "b.css", text := ".card:has(button) \x7b color: red \x7d" },
   { path := "a.css", text := ".card:has(button) \x7b color: red \x7d" }]

/-- The extraction state of the two-stylesheet scan: the hits stay in file
    processing order. -/
def usC7 : Usages :=
  [("f1",
    { id := "f1", count := 2,
      hits := [{ file := "b.css", line := 1, column := 1, snippet := ".card:has(button)" },
               { file := "a.css", line := 1, column := 1, snippet := ".card:has(button)" }],
      status := FeatureStatus.widely, coverage := 0,
      browsers := [("chrome", "105")], mdn := Option.none,
      severity := Severity.info, minCoverage := Option.none })]

/-- The usage entry of the two-stylesheet scan after classification. -/
def uC7 : FeatureUsage :=
  { id := "f1", count := 2,
    hits := [{ file := "b.css", line := 1, column := 1, snippet := ".card:has(button)" },
             { file := "a.css", line := 1, column := 1, snippet := ".card:has(button)" }],
    status := FeatureStatus.widely, coverage := 100,
    browsers := [("chrome", "105")], mdn := Option.none,
    severity := Severity.info, minCoverage := Option.none }

/-- The report of the two-stylesheet scan. -/
def resC7 : ScanResult :=
  { features := [("f1", uC7)],
    summary := { violations := [], warnings := [], pass := true,
                 coverageBudget := 95, achieved := 100 } }

/-- A stylesheet wrapped in a supports query with one has-pseudo rule. -/
def fileC9 : SourceFile :=
  { path := "s.css",
    text := "@supports(selector(:has(a))) \x7b .c:has(b) \x7b color: red \x7d \x7d" }

/-- The extraction state after processing fileC9 from an empty state: the
    single usage is softened from info to warn by the supports wrapper. -/
def usC9 : Usages :=
  [("f1",
    { id := "f1", count := 1,
      hits := [{ file := "s.css", line := 1, column := 1, snippet := ".card:has(button)" }],
      status := FeatureStatus.widely, coverage := 0,
      browsers := [("chrome", "105")], mdn := Option.none,
      severity := Severity.warn, minCoverage := Option.none })]

/-- A scan environment whose alias table resolves a token to a feature id
    that is missing from the feature table, over a guarded source line. -/
def envC10 : ScanEnv :=
  { features := [("f1", metaF1Widely)], aliases := [("bad.api", "ghost")],
    parseJs := fun _ => Except.ok [{ key := "bad.api", line := 1, column := 8 }],
    parseCss := fun _ => Except.ok { rules := [], decls := [] },
    parseHtml := fun _ => [], bl := blEmpty }

/-- A script file whose single line is a try/catch guard around the unknown
    token. -/
def fileC10 : SourceFile :=
  { path := "g.js", text := "try \x7b bad.api.go() \x7d catch (e) \x7b\x7d" }

/-! Bridge lemmas: the kernel-computable rational operations agree with the
    library operations. -/

theorem qadd_eq (a b : ℚ) : qadd a b = a + b := (Rat.add_def' a b).symm

theorem qmul_eq (a b : ℚ) : qmul a b = a * b := by
  rw [qmul, Rat.mul_def, Rat.normalize_eq_mkRat]

theorem qdiv_eq (a b : ℚ) : qdiv a b = a / b := by
  rcases eq_or_ne b.num 0 with hb | hb
  · have hb0 : b = 0 := Rat.num_eq_zero.mp hb
    subst hb0
    simp [qdiv]
  · rw [qdiv, ← Rat.divInt_mul_divInt _ _ (Int.natCast_ne_zero.mpr a.den_nz) hb,
      Rat.divInt_self, ← Rat.inv_def, ← Rat.div_def]

theorem qsum_eq : ∀ l : List ℚ, qsum l = l.sum
  | [] => rfl
  | x :: xs => by
    rw [qsum, List.foldr_cons, qadd_eq, List.sum_cons]
    rw [show List.foldr qadd 0 xs = qsum xs from rfl, qsum_eq xs]

theorem halfQ_eq : halfQ = 1 / 2 := by
  rw [halfQ, Rat.mkRat_eq_divInt, Rat.divInt_eq_div]
  norm_num

theorem jsRound_eq (q : ℚ) : jsRound q = ⌊q + 1 / 2⌋ := by
  rw [jsRound, qadd_eq, halfQ_eq]

/-- Integer bounds transfer through rounding. -/
theorem jsRound_bounds (a b : ℤ) (x : ℚ) (h1 : (a : ℚ) ≤ x) (h2 : x ≤ (b : ℚ)) :
    a ≤ jsRound x ∧ jsRound x ≤ b := by
  rw [jsRound_eq]
  constructor
  · apply Int.le_floor.mpr
    linarith
  · have h3 : ⌊x + 1 / 2⌋ < b + 1 := by
      apply Int.floor_lt.mpr
      push_cast
      linarith
    omega

/-! Association-list lemmas. -/

theorem alook_mem {α : Type} (l : AList α) (k : String) (v : α)
    (h : alook l k = Option.some v) : (k, v) ∈ l := by
  induction l with
  | nil => simp [alook] at h
  | cons p t ih =>
    rw [alook] at h
    split at h
    · next hk =>
      injection h with h2
      subst h2
      subst hk
      exact List.mem_cons_self _ _
    · next hk => exact List.mem_cons_of_mem _ (ih h)

/-- A relation holding pointwise locates a left partner of every right
    member. -/
theorem forall2_right_mem {α β : Type} {R : α → β → Prop} :
    ∀ {l1 : List α} {l2 : List β}, List.Forall₂ R l1 l2 →
      ∀ {b : β}, b ∈ l2 → ∃ a, a ∈ l1 ∧ R a b := by
  intro l1 l2 h
  induction h with
  | nil => intro b hb; cases hb
  | cons hr _ ih =>
    intro b hb
    rcases List.mem_cons.mp hb with rfl | hb'
    · exact ⟨_, List.mem_cons_self _ _, hr⟩
    · obtain ⟨a, ha, har⟩ := ih hb'
      exact ⟨a, List.mem_cons_of_mem _ ha, har⟩

/-! The coverage estimator. -/

/-- The one-pass analytics loop computes the share sum and the covered
    share sum. -/
theorem covFold_spec (minB : AList String) :
    ∀ (l : AList ℚ) (a b : ℚ),
      l.foldl (covStep minB) (a, b) =
        (a + (l.map (fun p => p.2)).sum,
         b + ((l.filter (fun p => truthyStr (alook minB p.1))).map
                (fun p => p.2)).sum) := by
  intro l
  induction l with
  | nil => intro a b; simp
  | cons x xs ih =>
    intro a b
    rw [List.foldl_cons]
    by_cases hc : truthyStr (alook minB x.1)
    · rw [show covStep minB (a, b) x = (qadd a x.2, qadd b x.2) by
        simp [covStep, hc]]
      rw [ih, qadd_eq, qadd_eq]
      simp [List.filter_cons, hc]
      constructor <;> ring
    · rw [show covStep minB (a, b) x = (qadd a x.2, b) by
        simp [covStep, hc]]
      rw [ih, qadd_eq]
      simp [List.filter_cons, hc]
      ring

/-- Normal form of the estimator over a non-empty audience distribution. -/
theorem estimateCoverage_analytics (bl : String → List String) (minB : AList String)
    (analytics : AList ℚ) (blq : Option String) (h1 : analytics ≠ []) :
    estimateCoverage bl minB analytics blq =
      (if (analytics.map (fun p => p.2)).sum = 0 then 0
       else jsRound (100 * ((analytics.filter
                (fun p => truthyStr (alook minB p.1))).map (fun p => p.2)).sum /
              (analytics.map (fun p => p.2)).sum)) := by
  rw [estimateCoverage, if_pos h1, covFold_spec minB analytics 0 0]
  simp only [zero_add]
  by_cases hT : (analytics.map (fun p => p.2)).sum = 0
  · rw [if_neg (by simpa using hT), if_pos hT]
  · rw [if_pos (by simpa using hT), if_neg hT, qdiv_eq, qmul_eq]
    congr 1
    ring

/-- Sum of a filtered map is at most the sum of the map, for nonnegative
    values. -/
theorem sum_filter_le_sum {α : Type} (q : α → Bool) (f : α → ℚ) :
    ∀ l : List α, (∀ x ∈ l, 0 ≤ f x) →
      ((l.filter q).map f).sum ≤ (l.map f).sum := by
  intro l
  induction l with
  | nil => intro _; simp
  | cons x xs ih =>
    intro hn
    have hx : 0 ≤ f x := hn x (List.mem_cons_self _ _)
    have hxs := ih (fun y hy => hn y (List.mem_cons_of_mem _ hy))
    by_cases hq : q x = true
    · rw [List.filter_cons, if_pos hq]
      simp only [List.map_cons, List.sum_cons]
      linarith
    · rw [List.filter_cons, if_neg hq]
      simp only [List.map_cons, List.sum_cons]
      linarith

/-- The estimator stays within 0..100 when every share is nonnegative. -/
theorem estimateCoverage_bounds (bl : String → List String) (minB : AList String)
    (analytics : AList ℚ) (blq : Option String)
    (hn : ∀ p ∈ analytics, 0 ≤ p.2) :
    0 ≤ estimateCoverage bl minB analytics blq ∧
      estimateCoverage bl minB analytics blq ≤ 100 := by
  by_cases h1 : analytics = []
  · subst h1
    simp only [estimateCoverage, ne_eq, not_true_eq_false, if_false]
    by_cases hz :
        (distinctNames ((bl (blq.getD ">0.5%, not dead")).map browserName)).length = 0
    · rw [if_neg (by simp [hz])]
      norm_num
    · rw [if_pos hz]
      have hle := List.length_filter_le
        (fun b => truthyStr (alook minB b))
        (distinctNames ((bl (blq.getD ">0.5%, not dead")).map browserName))
      have hpos : (0 : ℚ) <
          ((distinctNames ((bl (blq.getD ">0.5%, not dead")).map browserName)).length : ℚ) := by
        exact_mod_cast Nat.pos_of_ne_zero hz
      have hleq : (((distinctNames ((bl (blq.getD ">0.5%, not dead")).map
          browserName)).filter (fun b => truthyStr (alook minB b))).length : ℚ) ≤
          ((distinctNames ((bl (blq.getD ">0.5%, not dead")).map browserName)).length : ℚ) := by
        exact_mod_cast hle
      rw [qmul_eq, qdiv_eq]
      apply jsRound_bounds
      · push_cast
        positivity
      · push_cast
        rw [div_mul_eq_mul_div, div_le_iff₀ hpos]
        nlinarith
  · rw [estimateCoverage_analytics bl minB analytics blq h1]
    have hT0 : 0 ≤ (analytics.map (fun p => p.2)).sum := by
      apply List.sum_nonneg
      intro x hx
      obtain ⟨p, hp, rfl⟩ := List.mem_map.mp hx
      exact hn p hp
    have hCT : ((analytics.filter
        (fun p => truthyStr (alook minB p.1))).map (fun p => p.2)).sum ≤
        (analytics.map (fun p => p.2)).sum :=
      sum_filter_le_sum _ _ analytics hn
    by_cases hT : (analytics.map (fun p => p.2)).sum = 0
    · simp [hT]
    · rw [if_neg hT]
      have hC0 : 0 ≤ ((analytics.filter
          (fun p => truthyStr (alook minB p.1))).map (fun p => p.2)).sum := by
        apply List.sum_nonneg
        intro x hx
        obtain ⟨p, hp, rfl⟩ := List.mem_map.mp hx
        exact hn p (List.mem_of_mem_filter hp)
      have hTpos : 0 < (analytics.map (fun p => p.2)).sum :=
        lt_of_le_of_ne hT0 (Ne.symm hT)
      apply jsRound_bounds
      · push_cast
        positivity
      · push_cast
        rw [div_le_iff₀ hTpos]
        nlinarith

/-! The finalize fold. -/

/-- A successful finalize fold appends the classified entries in order and
    accumulates exactly the non-ignored coverage contributions. -/
theorem finFold_spec (env : ScanEnv) (cfg : FlightdeckConfig) (analytics : AList ℚ) :
    ∀ (us : Usages) (acc r : Usages × ℤ × ℕ),
      List.foldlM (finStep env cfg analytics) acc us = Except.ok r →
      ∃ es, r.1 = acc.1 ++ es ∧
        r.2.1 = acc.2.1 + (es.map (contribC cfg)).sum ∧
        r.2.2 = acc.2.2 + (es.map (contribN cfg)).sum ∧
        List.Forall₂
          (fun p q => q.1 = p.1 ∧
            classifyEntry env cfg analytics p.1 p.2 = Option.some q.2) us es := by
  intro us
  induction us with
  | nil =>
    intro acc r h
    rw [List.foldlM_nil] at h
    injection h with h
    exact ⟨[], by simp [← h], by simp [← h], by simp [← h], List.Forall₂.nil⟩
  | cons p ps ih =>
    intro acc r h
    rw [List.foldlM_cons] at h
    cases hstep : finStep env cfg analytics acc p with
    | error e =>
      rw [hstep] at h
      simp only [Bind.bind, Except.bind] at h
      exact Except.noConfusion h
    | ok acc2 =>
      rw [hstep] at h
      have h2 : List.foldlM (finStep env cfg analytics) acc2 ps = Except.ok r := h
      obtain ⟨es, he1, he2, he3, hall⟩ := ih acc2 r h2
      simp only [finStep] at hstep
      cases hce : classifyEntry env cfg analytics p.1 p.2 with
      | none => rw [hce] at hstep; exact Except.noConfusion hstep
      | some u =>
        rw [hce] at hstep
        dsimp only [] at hstep
        by_cases hig : p.1 ∈ cfg.ignore
        · rw [if_pos hig] at hstep
          injection hstep with hstep
          refine ⟨(p.1, u) :: es, ?_, ?_, ?_, List.Forall₂.cons ⟨rfl, hce⟩ hall⟩
          · rw [he1, ← hstep]; simp
          · rw [he2, ← hstep]; simp [contribC, hig]
          · rw [he3, ← hstep]; simp [contribN, hig]
        · rw [if_neg hig] at hstep
          injection hstep with hstep
          refine ⟨(p.1, u) :: es, ?_, ?_, ?_, List.Forall₂.cons ⟨rfl, hce⟩ hall⟩
          · rw [he1, ← hstep]; simp
          · rw [he2, ← hstep]; simp [contribC, hig]; ring
          · rw [he3, ← hstep]; simp [contribN, hig]; ring

/-- Destructor of a successful finalize. -/
theorem finalize_ok_elim (env : ScanEnv) (cfg : FlightdeckConfig)
    (analytics : AList ℚ) (us : Usages) (res : ScanResult)
    (h : finalize env cfg analytics us = Except.ok res) :
    ∃ es tc tn,
      List.foldlM (finStep env cfg analytics) (([] : Usages), (0 : ℤ), (0 : ℕ)) us =
        Except.ok (es, tc, tn) ∧
      res = assemble cfg es tc tn := by
  rw [finalize] at h
  cases hf : List.foldlM (finStep env cfg analytics)
      (([] : Usages), (0 : ℤ), (0 : ℕ)) us with
  | error e => rw [hf] at h; exact Except.noConfusion h
  | ok t =>
    obtain ⟨es, tc, tn⟩ := t
    rw [hf] at h
    dsimp only [] at h
    injection h with h
    exact ⟨es, tc, tn, rfl, h.symm⟩

/-- Destructor of a successful scan. -/
theorem scanProject_ok_elim (env : ScanEnv) (cfg : FlightdeckConfig)
    (analytics : AList ℚ) (files : List SourceFile) (res : ScanResult)
    (h : scanProject env cfg analytics files = Except.ok res) :
    ∃ us, extractAll env files = Except.ok us ∧
      finalize env cfg analytics us = Except.ok res := by
  rw [scanProject] at h
  cases hx : extractAll env files with
  | error e => rw [hx] at h; exact Except.noConfusion h
  | ok us => rw [hx] at h; exact ⟨us, rfl, h⟩

/-- Every entry of a successful scan report is the classification of an
    extraction-phase entry with the same id. -/
theorem scan_entry_src (env : ScanEnv) (cfg : FlightdeckConfig)
    (analytics : AList ℚ) (files : List SourceFile) (res : ScanResult)
    (us : Usages) (id : String) (u : FeatureUsage)
    (hscan : scanProject env cfg analytics files = Except.ok res)
    (hext : extractAll env files = Except.ok us)
    (hm : (id, u) ∈ res.features) :
    ∃ u0, (id, u0) ∈ us ∧
      classifyEntry env cfg analytics id u0 = Option.some u := by
  obtain ⟨us2, hx, hf⟩ := scanProject_ok_elim _ _ _ _ _ hscan
  rw [hext] at hx
  injection hx with hx
  subst hx
  obtain ⟨es, tc, tn, hfold, hres⟩ := finalize_ok_elim _ _ _ _ _ hf
  obtain ⟨es2, h1, _, _, hall⟩ := finFold_spec env cfg analytics us _ _ hfold
  subst hres
  have hm2 : (id, u) ∈ es := by simpa [assemble] using hm
  rw [show es = es2 by simpa using h1] at hm2
  obtain ⟨p0, hp0, har⟩ := forall2_right_mem hall hm2
  have hid : id = p0.1 := har.1
  refine ⟨p0.2, ?_, ?_⟩
  · have heq : (id, p0.2) = p0 := by
      obtain ⟨a, b⟩ := p0
      simp only at hid ⊢
      rw [hid]
    rw [heq]
    exact hp0
  · rw [hid]
    exact har.2

/-- Every entry of a successful scan report is the classification of some
    usage entry. -/
theorem scan_entry (env : ScanEnv) (cfg : FlightdeckConfig)
    (analytics : AList ℚ) (files : List SourceFile) (res : ScanResult)
    (id : String) (u : FeatureUsage)
    (hscan : scanProject env cfg analytics files = Except.ok res)
    (hm : (id, u) ∈ res.features) :
    ∃ u0, classifyEntry env cfg analytics id u0 = Option.some u := by
  obtain ⟨us, hx, _⟩ := scanProject_ok_elim _ _ _ _ _ hscan
  obtain ⟨u0, _, hce⟩ := scan_entry_src _ _ _ _ _ _ _ _ hscan hx hm
  exact ⟨u0, hce⟩

/-- Destructor of a successful per-entry classification. -/
theorem classifyEntry_some_elim (env : ScanEnv) (cfg : FlightdeckConfig)
    (analytics : AList ℚ) (id : String) (u0 u : FeatureUsage)
    (h : classifyEntry env cfg analytics id u0 = Option.some u) :
    ∃ meta, alook env.features id = Option.some meta ∧
      u = (if id ∈ cfg.ignore then
            { u0 with
                coverage := estimateCoverage env.bl meta.browsers analytics cfg.browserslist,
                severity := Severity.info }
          else
            { u0 with
                coverage := estimateCoverage env.bl meta.browsers analytics cfg.browserslist,
                severity := classifySeverity cfg meta.status (alook cfg.overrides id)
                  (estimateCoverage env.bl meta.browsers analytics cfg.browserslist)
                  u0.severity }) := by
  rw [classifyEntry] at h
  cases hf : alook env.features id with
  | none => rw [hf] at h; exact Option.noConfusion h
  | some meta =>
    rw [hf] at h
    dsimp only [] at h
    injection h with h
    refine ⟨meta, rfl, ?_⟩
    rw [← h]

/-! The severity rule chain. -/

/-- With status none and no severity override, the rule chain ends at error:
    the status rule forces error, the minimum-coverage rule can only keep or
    force error, and the budget rule preserves error. -/
theorem classifySeverity_none_noSevOverride (cfg : FlightdeckConfig)
    (ov : Option Override) (coverage : ℤ) (sev : Severity)
    (hov : ov.bind (fun o => o.severity) = Option.none) :
    classifySeverity cfg FeatureStatus.none ov coverage sev = Severity.error := by
  simp only [classifySeverity, hov]
  cases hmc : ov.bind (fun o => o.minCoverage) with
  | none => simp
  | some m => simp

/-- A truthy minCoverage override with the coverage strictly below it forces
    error, whatever the earlier rules produced. -/
theorem classifySeverity_minCovLow (cfg : FlightdeckConfig) (status : FeatureStatus)
    (ov : Option Override) (coverage : ℤ) (sev : Severity) (m : ℚ)
    (hmc : ov.bind (fun o => o.minCoverage) = Option.some m)
    (hc : m ≠ 0 ∧ (coverage : ℚ) < m) :
    classifySeverity cfg status ov coverage sev = Severity.error := by
  simp only [classifySeverity, hmc, if_pos hc]
  simp

/-! Claim theorems. -/

/-- C5: for every feature whose id is in the configured ignore list, the
    severity recorded in the final ScanResult is info, for every status,
    coverage value, and override configuration: the ignore rule fires first
    and skips the remaining classification rules. -/
theorem c5_ignored_severity_info (env : ScanEnv) (cfg : FlightdeckConfig)
    (analytics : AList ℚ) (files : List SourceFile) (res : ScanResult)
    (id : String) (u : FeatureUsage)
    (hscan : scanProject env cfg analytics files = Except.ok res)
    (hu : alook res.features id = Option.some u)
    (hig : id ∈ cfg.ignore) :
    u.severity = Severity.info := by
  obtain ⟨u0, hce⟩ := scan_entry _ _ _ _ _ _ _ hscan (alook_mem _ _ _ hu)
  obtain ⟨meta, hfm, hu2⟩ := classifyEntry_some_elim _ _ _ _ _ _ hce
  rw [hu2, if_pos hig]

/-- C5 witness: the concrete ignored-feature scan (a status-none feature in
    the ignore list) reports severity info. -/
theorem c5_witness : uC5W.severity = Severity.info :=
  c5_ignored_severity_info (jsEnv metaF1None) cfgC5 anChrome [fileX] resC5W
    "f1" uC5W (by rfl) (by rfl) (by decide)

/-- C1 (amended): for every scanned feature whose baseline status is none,
    whose id is not in the configured ignore list, and for which the
    configuration does not set a severity override for that feature, the
    severity recorded in the final ScanResult is error. The claim as frozen
    also covered configurations with a severity override, but the override
    rule runs after, and replaces, the status rule (see c1_counterexample). -/
theorem c1_status_none_severity (env : ScanEnv) (cfg : FlightdeckConfig)
    (analytics : AList ℚ) (files : List SourceFile) (res : ScanResult)
    (id : String) (u : FeatureUsage) (meta : FeatureMeta)
    (hscan : scanProject env cfg analytics files = Except.ok res)
    (hu : alook res.features id = Option.some u)
    (hf : alook env.features id = Option.some meta)
    (hst : meta.status = FeatureStatus.none)
    (hig : id ∉ cfg.ignore)
    (hov : (alook cfg.overrides id).bind (fun o => o.severity) = Option.none) :
    u.severity = Severity.error := by
  obtain ⟨u0, hce⟩ := scan_entry _ _ _ _ _ _ _ hscan (alook_mem _ _ _ hu)
  obtain ⟨meta2, hf2, hu2⟩ := classifyEntry_some_elim _ _ _ _ _ _ hce
  rw [hf] at hf2
  injection hf2 with hf2
  subst hf2
  rw [hu2, if_neg hig]
  show classifySeverity cfg meta.status (alook cfg.overrides id)
      (estimateCoverage env.bl meta.browsers analytics cfg.browserslist)
      u0.severity = Severity.error
  rw [hst]
  exact classifySeverity_none_noSevOverride cfg _ _ _ hov

/-- C1 witness: the concrete status-none scan with no overrides ends with
    severity error. -/
theorem c1_witness : uC1W.severity = Severity.error :=
  c1_status_none_severity (jsEnv metaF1None) cfgBase anChrome [fileX] resC1W
    "f1" uC1W metaF1None (by rfl) (by rfl) (by rfl) (by rfl) (by decide) (by rfl)

/-- C1 counterexample: a status-none feature, not ignored, with an info
    severity override and coverage above the budget ends with severity info,
    refuting the frozen claim for configurations with overrides. -/
theorem c1_counterexample :
    (alook (jsEnv metaF1None).features "f1").map (fun m => m.status) =
        Option.some FeatureStatus.none ∧
    ("f1" ∉ cfgC1X.ignore) ∧
    sevOf (scanProject (jsEnv metaF1None) cfgC1X anChrome [fileX]) "f1" =
        Option.some Severity.info :=
  ⟨by decide, by decide, by decide⟩

/-- C6 (amended): for every feature not in ignore whose override specifies a
    minCoverage of X with X nonzero and computed coverage strictly below X,
    the final severity is error, even when the same override also specifies
    severity info. The claim as frozen also covered X = 0, but a zero
    minCoverage is falsy in JS and the rule is skipped
    (see c6_counterexample). -/
theorem c6_minCoverage_override (env : ScanEnv) (cfg : FlightdeckConfig)
    (analytics : AList ℚ) (files : List SourceFile) (res : ScanResult)
    (id : String) (u : FeatureUsage) (ov : Override) (m : ℚ)
    (hscan : scanProject env cfg analytics files = Except.ok res)
    (hu : alook res.features id = Option.some u)
    (hig : id ∉ cfg.ignore)
    (hov : alook cfg.overrides id = Option.some ov)
    (hm : ov.minCoverage = Option.some m)
    (hm0 : m ≠ 0)
    (hlt : (u.coverage : ℚ) < m) :
    u.severity = Severity.error := by
  obtain ⟨u0, hce⟩ := scan_entry _ _ _ _ _ _ _ hscan (alook_mem _ _ _ hu)
  obtain ⟨meta, hfm, hu2⟩ := classifyEntry_some_elim _ _ _ _ _ _ hce
  rw [hu2, if_neg hig] at hlt
  dsimp only [] at hlt
  rw [hu2, if_neg hig]
  show classifySeverity cfg meta.status (alook cfg.overrides id)
      (estimateCoverage env.bl meta.browsers analytics cfg.browserslist)
      u0.severity = Severity.error
  refine classifySeverity_minCovLow cfg _ _ _ _ m ?_ ⟨hm0, hlt⟩
  rw [hov]
  simp [hm]

/-- C6 witness: coverage 0 below the override minimum of 50 with an info
    severity override in the same record ends with severity error. -/
theorem c6_witness : uC6W.severity = Severity.error :=
  c6_minCoverage_override (jsEnv metaF1NoBrowsers) cfgC6W anChrome [fileX]
    resC6W "f1" uC6W ovC6W 50 (by rfl) (by rfl) (by decide) (by rfl) (by rfl)
    (by decide) (by decide)

/-- C6 counterexample: with an override of minCoverage 0 and severity info,
    and a computed coverage of -100 (strictly below 0), the final severity is
    warn, not error: the zero minCoverage is falsy and the rule is skipped. -/
theorem c6_counterexample :
    (alook cfgC6X.overrides "f1") =
        Option.some { minCoverage := Option.some 0,
                      severity := Option.some Severity.info } ∧
    ("f1" ∉ cfgC6X.ignore) ∧
    (featOf (scanProject (jsEnv metaF1Widely) cfgC6X anNegChrome [fileX]) "f1").map
        (fun u => (u.coverage, u.severity)) =
      Option.some ((-100 : ℤ), Severity.warn) :=
  ⟨by decide, by decide, by decide⟩

/-- C4: over a non-empty audience distribution whose min-version table has no
    empty version strings (presence of a browser key then coincides with JS
    truthiness of its lookup), the coverage estimator returns
    round(100 x (sum of shares of browsers present in minBrowserVersions) /
    (sum of all shares)), and 0 when the total share is zero. -/
theorem c4_coverage_estimator (bl : String → List String) (minB : AList String)
    (analytics : AList ℚ) (blq : Option String)
    (h1 : analytics ≠ [])
    (h2 : ∀ p ∈ minB, p.2 ≠ "") :
    estimateCoverage bl minB analytics blq = coverageSpec minB analytics := by
  have hfilter : analytics.filter (fun p => truthyStr (alook minB p.1)) =
      analytics.filter (fun p => (alook minB p.1).isSome) := by
    apply List.filter_congr
    intro p hp
    cases hm : alook minB p.1 with
    | none => rfl
    | some v =>
      have hv : v ≠ "" := h2 (p.1, v) (alook_mem minB p.1 v hm)
      simp [truthyStr, hv]
  rw [estimateCoverage_analytics bl minB analytics blq h1, coverageSpec]
  simp only [qsum_eq, qdiv_eq, qmul_eq, hfilter]

/-- C4 witness: audience rows chrome 70 and firefox 30 with a min-version map
    containing only chrome give coverage 70, on both sides of the formula. -/
theorem c4_witness :
    estimateCoverage blEmpty [("chrome", "105")]
        [("chrome", 70), ("firefox", 30)] Option.none = 70 ∧
    coverageSpec [("chrome", "105")] [("chrome", 70), ("firefox", 30)] = 70 := by
  constructor
  · rw [c4_coverage_estimator blEmpty [("chrome", "105")]
        [("chrome", 70), ("firefox", 30)] Option.none (by decide) (by decide)]
    decide
  · decide

/-- C3 (amended): the summary's achieved value equals
    round(sum(min(100, coverage) x count) / sum(count)) taken over the
    non-ignored features with at least one hit (ignored features are skipped
    by the aggregation: the frozen claim included them, see
    c3_counterexample), or 100 when there are none; scanning an empty source
    directory yields an empty feature map, achieved 100, and pass true for
    every coverage budget of at most 100. -/
theorem c3_achieved_formula (env : ScanEnv) (cfg : FlightdeckConfig)
    (analytics : AList ℚ) (files : List SourceFile) (res : ScanResult)
    (hscan : scanProject env cfg analytics files = Except.ok res) :
    res.summary.achieved = achievedNonIgnored cfg res.features ∧
    (files = [] →
      res.features = [] ∧ res.summary.achieved = 100 ∧
      (cfg.coverageBudget ≤ 100 → res.summary.pass = true)) := by
  obtain ⟨us, hx, hf⟩ := scanProject_ok_elim _ _ _ _ _ hscan
  obtain ⟨es, tc, tn, hfold, hres⟩ := finalize_ok_elim _ _ _ _ _ hf
  obtain ⟨es2, h1, h2, h3, hall⟩ := finFold_spec env cfg analytics us _ _ hfold
  have hes : es = es2 := by simpa using h1
  have htc : tc = (es2.map (contribC cfg)).sum := by simpa using h2
  have htn : tn = (es2.map (contribN cfg)).sum := by simpa using h3
  subst hres
  constructor
  · show (assemble cfg es tc tn).summary.achieved =
      achievedNonIgnored cfg (assemble cfg es tc tn).features
    show (if tn ≠ 0 then jsRound (qdiv (tc : ℚ) (tn : ℚ)) else 100) =
      achievedNonIgnored cfg es
    rw [hes, htc, htn]
    rfl
  · intro hfe
    subst hfe
    have hus : us = [] := by
      have hnil : extractAll env ([] : List SourceFile) =
          Except.ok ([] : Usages) := rfl
      rw [hnil] at hx
      injection hx with hx
      exact hx.symm
    subst hus
    have h0 : List.foldlM (finStep env cfg analytics)
        (([] : Usages), (0 : ℤ), (0 : ℕ)) ([] : Usages) =
        Except.ok (([] : Usages), (0 : ℤ), (0 : ℕ)) := rfl
    rw [h0] at hfold
    simp only [Except.ok.injEq, Prod.mk.injEq] at hfold
    obtain ⟨hze, hzt, hzn⟩ := hfold
    subst hze
    subst hzt
    subst hzn
    refine ⟨rfl, rfl, ?_⟩
    intro hb
    show (assemble cfg [] 0 0).summary.pass = true
    have hpr : (assemble cfg [] 0 0).summary.pass =
        (true && decide ((((100 : ℤ) : ℚ)) ≥ cfg.coverageBudget)) := rfl
    rw [hpr]
    simp only [Bool.true_and, decide_eq_true_eq]
    push_cast
    linarith

/-- C3 witness: the empty-directory scan yields the empty feature map,
    achieved 100, pass true, and satisfies the achieved formula. -/
theorem c3_witness :
    resC3W.summary.achieved = achievedNonIgnored cfgBase resC3W.features ∧
    resC3W.features = [] ∧ resC3W.summary.achieved = 100 ∧
    resC3W.summary.pass = true := by
  have h := c3_achieved_formula (jsEnv metaF1None) cfgBase anChrome [] resC3W (by rfl)
  obtain ⟨h1, h2⟩ := h
  obtain ⟨h3, h4, h5⟩ := h2 rfl
  exact ⟨h1, h3, h4, h5 (by norm_num [cfgBase])⟩

/-- C3 counterexample: a scan whose only feature (one hit, coverage 0) is
    ignored reports achieved 100, while the frozen formula over every feature
    with at least one hit, ignored included, gives 0. -/
theorem c3_counterexample :
    ("f1" ∈ cfgC5.ignore) ∧
    (resOf (scanProject (jsEnv metaF1NoBrowsers) cfgC5 anChrome [fileX])).map
        (fun r => (r.summary.achieved, achievedSpecAll r.features)) =
      Option.some ((100 : ℤ), (0 : ℤ)) :=
  ⟨by decide, by decide⟩

/-- A fold in the exception monad fails whenever some element always makes
    the step fail. -/
theorem foldlM_err {α β : Type} (step : β → α → Except String β) (x : α)
    (e : String) (hx : ∀ acc, step acc x = Except.error e) :
    ∀ (l : List α) (acc : β), x ∈ l →
      ∃ msg, List.foldlM step acc l = Except.error msg := by
  intro l
  induction l with
  | nil => intro acc h; exact absurd h (List.not_mem_nil x)
  | cons y ys ih =>
    intro acc hmem
    rw [List.foldlM_cons]
    rcases List.mem_cons.mp hmem with rfl | hmem2
    · exact ⟨e, by rw [hx acc]; rfl⟩
    · cases hstep : step acc y with
      | error e2 => exact ⟨e2, rfl⟩
      | ok acc2 =>
        obtain ⟨msg, hm⟩ := ih acc2 hmem2
        exact ⟨msg, hm⟩

/-- A script-branch parse failure makes processFile fail regardless of the
    accumulated state: there is no try/catch around the parser. -/
theorem processFile_script_error (env : ScanEnv) (f : SourceFile) (e : String)
    (hs : isScriptPath f.path = true) (hp : env.parseJs f.text = Except.error e) :
    ∀ us, processFile env us f = Except.error e := by
  intro us
  rw [processFile, if_pos hs, hp]

/-- C2 (amended): a parse failure on an individual script file aborts the
    whole scan: the parser exception propagates out of scanProject and no
    report is produced. The frozen claim said the file is skipped, the error
    recorded as a file-level diagnostic, and extraction continues; the code
    has no try/catch around the per-file parsers and ScanResult has no
    diagnostics field (see c2_counterexample). -/
theorem c2_parse_failure_aborts (env : ScanEnv) (cfg : FlightdeckConfig)
    (analytics : AList ℚ) (files : List SourceFile) (f : SourceFile) (e : String)
    (hmem : f ∈ files) (hs : isScriptPath f.path = true)
    (hp : env.parseJs f.text = Except.error e) :
    ∃ msg, scanProject env cfg analytics files = Except.error msg := by
  obtain ⟨msg, hm⟩ := foldlM_err (processFile env) f e
    (processFile_script_error env f e hs hp) files ([] : Usages) hmem
  refine ⟨msg, ?_⟩
  rw [scanProject, show extractAll env files = Except.error msg from hm]

/-- C2 witness: the scan of a malformed script file followed by a well-formed
    one fails. -/
theorem c2_witness :
    ∃ msg, scanProject envC2 cfgBase anChrome filesC2 = Except.error msg :=
  c2_parse_failure_aborts envC2 cfgBase anChrome filesC2
    { path := "bad.js", text := "BAD" } "SyntaxError: Unexpected token"
    (by decide) (by decide) (by rfl)

/-- C2 counterexample: the scan aborts with the parser error of the first
    malformed file; the second, well-formed file is never reflected in any
    report, and no file-level diagnostic exists. -/
theorem c2_counterexample :
    errOf (scanProject envC2 cfgBase anChrome filesC2) =
      Option.some "SyntaxError: Unexpected token" := by decide

/-- C7 (amended): hit lists are kept in extraction order: the classification
    and assembly phases never reorder, drop or add hits, so the final
    ordering follows the sequential file-processing order. The frozen claim
    said each feature's hit list is sorted by (file path, line, column)
    after extraction; no such sort exists (see c7_counterexample). -/
theorem c7_hits_in_extraction_order (env : ScanEnv) (cfg : FlightdeckConfig)
    (analytics : AList ℚ) (files : List SourceFile) (res : ScanResult)
    (us : Usages)
    (hscan : scanProject env cfg analytics files = Except.ok res)
    (hext : extractAll env files = Except.ok us) :
    ∀ p ∈ res.features, ∃ u0, (p.1, u0) ∈ us ∧
      p.2.hits = u0.hits ∧ p.2.count = u0.count := by
  intro p hp
  obtain ⟨u0, hm, hce⟩ := scan_entry_src _ _ _ _ _ _ p.1 p.2 hscan hext hp
  obtain ⟨meta, hfm, hu2⟩ := classifyEntry_some_elim _ _ _ _ _ _ hce
  refine ⟨u0, hm, ?_, ?_⟩
  · rw [hu2]
    split <;> rfl
  · rw [hu2]
    split <;> rfl

/-- C7 witness: in the two-stylesheet scan the classified hit list equals the
    extraction-phase hit list. -/
theorem c7_witness :
    ∃ u0, ("f1", u0) ∈ usC7 ∧ uC7.hits = u0.hits ∧ uC7.count = u0.count :=
  c7_hits_in_extraction_order envC7 cfgBase anChrome filesC7 resC7 usC7
    (by rfl) (by rfl) ("f1", uC7) (by decide)

/-- C7 counterexample: with the files enumerated as b.css then a.css, the
    final hit list of the feature is in processing order b.css, a.css and is
    not sorted by (file path, line, column). -/
theorem c7_counterexample :
    (featOf (scanProject envC7 cfgBase anChrome filesC7) "f1").map
        (fun u => (sortedHits u.hits, u.hits.map (fun h => h.file))) =
      Option.some (false, ["b.css", "a.css"]) := by decide

/-- C9: when a stylesheet file contains a supports wrapper, every feature
    with at least one hit recorded in that file leaves the file's processing
    step with a severity other than info (an info severity was softened to
    warn), and the softening never changes an entry whose severity is not
    info: it is file-scoped over every accumulated usage, not rule-scoped. -/
theorem c9_supports_softening (env : ScanEnv) (f : SourceFile) (us us2 : Usages)
    (hns : isScriptPath f.path = false)
    (hcss : isCssPath f.path = true)
    (hw : hasSupportsWrapper f.text = true)
    (hp : processFile env us f = Except.ok us2) :
    (∀ p ∈ us2, p.2.hits.any (fun h => decide (h.file = f.path)) = true →
        p.2.severity ≠ Severity.info) ∧
    (∀ (vs : Usages) (file : String), ∀ p ∈ vs,
        p.2.severity ≠ Severity.info → p ∈ softenFile vs file) := by
  constructor
  · intro p hp2 hhit
    rw [processFile, if_neg (by simp [hns]), if_pos hcss] at hp
    cases hpc : env.parseCss f.text with
    | error e => rw [hpc] at hp; exact Except.noConfusion hp
    | ok ast =>
      rw [hpc] at hp
      dsimp only [] at hp
      rw [hw] at hp
      rw [if_pos rfl] at hp
      injection hp with hp
      rw [← hp] at hp2
      obtain ⟨q, hq, hqe⟩ := List.mem_map.mp hp2
      dsimp only [] at hqe
      by_cases h1 : q.2.hits.any (fun h => decide (h.file = f.path)) = true
      · rw [if_pos h1] at hqe
        by_cases h2 : q.2.severity = Severity.info
        · rw [if_pos h2] at hqe
          rw [← hqe]
          simp
        · rw [if_neg h2] at hqe
          rw [← hqe]
          exact h2
      · rw [if_neg h1] at hqe
        rw [← hqe] at hhit
        exact absurd hhit h1
  · intro vs file p hmem hsev
    apply List.mem_map.mpr
    refine ⟨p, hmem, ?_⟩
    dsimp only []
    by_cases h1 : p.2.hits.any (fun h => decide (h.file = file)) = true
    · rw [if_pos h1, if_neg hsev]
    · rw [if_neg h1]

/-- C9 witness: the supports-wrapped stylesheet leaves its single hit
    feature with a severity that is no longer info. -/
theorem c9_witness :
    hasSupportsWrapper fileC9.text = true ∧
    (∀ p ∈ usC9, p.2.hits.any (fun h => decide (h.file = fileC9.path)) = true →
        p.2.severity ≠ Severity.info) :=
  ⟨by decide,
   (c9_supports_softening envC7 fileC9 [] usC9 (by decide) (by decide)
      (by decide) (by rfl)).1⟩

/-- C10 (amended): recording a hit whose alias resolves to a feature id
    absent from the feature table is a no-op on the usage map (no entry, no
    count, no diagnostic), and consequently every feature id appearing in a
    successful ScanResult is a key of the feature table. The frozen claim
    also said the scan always continues; in the script branch the subsequent
    progressive-guard severity write dereferences the missing entry and
    aborts the scan (see c10_counterexample). -/
theorem c10_unknown_feature :
    (∀ (features : AList FeatureMeta) (usages : Usages) (id file : String)
        (line column : ℤ) (snippet : String),
        alook features id = Option.none →
        addHit features usages id file line column snippet = usages) ∧
    (∀ (env : ScanEnv) (cfg : FlightdeckConfig) (analytics : AList ℚ)
        (files : List SourceFile) (res : ScanResult),
        scanProject env cfg analytics files = Except.ok res →
        ∀ p ∈ res.features, (alook env.features p.1).isSome = true) := by
  constructor
  · intro features usages id file line column snippet h
    rw [addHit, h]
  · intro env cfg analytics files res hscan p hp
    obtain ⟨u0, hce⟩ := scan_entry _ _ _ _ _ p.1 p.2 hscan hp
    obtain ⟨meta, hfm, _⟩ := classifyEntry_some_elim _ _ _ _ _ _ hce
    rw [hfm]
    rfl

/-- C10 witness: addHit on an id missing from the table leaves the empty
    usage map unchanged, and the id recorded by a successful scan is a key
    of the feature table. -/
theorem c10_witness :
    addHit (jsEnv metaF1None).features [] "ghost" "f.js" 1 0 "" = [] ∧
    (alook (jsEnv metaF1None).features "f1").isSome = true :=
  ⟨c10_unknown_feature.1 (jsEnv metaF1None).features [] "ghost" "f.js" 1 0 ""
      (by decide),
   c10_unknown_feature.2 (jsEnv metaF1None) cfgBase anChrome [fileX] resC1W
      (by rfl) ("f1", uC1W) (by decide)⟩

/-- C10 counterexample: a guarded source line whose token resolves to an id
    missing from the feature table makes the scan throw: after the no-op
    addHit, the severity write dereferences the missing usage entry, so the
    scan does not continue. -/
theorem c10_counterexample :
    errOf (scanProject envC10 cfgBase [] [fileC10]) =
      Option.some "TypeError: Cannot set properties of undefined (setting severity)" := by
  decide

/-- C8 (amended): when every share of the audience distribution is
    nonnegative, the summary's achieved value and every feature's coverage
    value of a successful scan lie in the integer range 0..100. The frozen
    claim covered arbitrary numeric shares, but a negative share makes the
    unclamped estimator leave the range (see c8_counterexample). -/
theorem c8_bounds (env : ScanEnv) (cfg : FlightdeckConfig)
    (analytics : AList ℚ) (files : List SourceFile) (res : ScanResult)
    (hn : ∀ p ∈ analytics, 0 ≤ p.2)
    (hscan : scanProject env cfg analytics files = Except.ok res) :
    (0 ≤ res.summary.achieved ∧ res.summary.achieved ≤ 100) ∧
    (∀ p ∈ res.features, 0 ≤ p.2.coverage ∧ p.2.coverage ≤ 100) := by
  obtain ⟨us, hx, hf⟩ := scanProject_ok_elim _ _ _ _ _ hscan
  obtain ⟨es, tc, tn, hfold, hres⟩ := finalize_ok_elim _ _ _ _ _ hf
  obtain ⟨es2, h1, h2, h3, hall⟩ := finFold_spec env cfg analytics us _ _ hfold
  have hes : es = es2 := by simpa using h1
  subst hes
  have htc : tc = (es.map (contribC cfg)).sum := by simpa using h2
  have htn : tn = (es.map (contribN cfg)).sum := by simpa using h3
  subst hres
  have hcov : ∀ p ∈ es, 0 ≤ p.2.coverage ∧ p.2.coverage ≤ 100 := by
    intro p hp
    obtain ⟨p0, hp0, har⟩ := forall2_right_mem hall hp
    obtain ⟨meta, hfm, hu2⟩ := classifyEntry_some_elim _ _ _ _ _ _ har.2
    have hb := estimateCoverage_bounds env.bl meta.browsers analytics
      cfg.browserslist hn
    rw [hu2]
    by_cases hig : p0.1 ∈ cfg.ignore
    · rw [if_pos hig]; exact hb
    · rw [if_neg hig]; exact hb
  constructor
  · show 0 ≤ (if tn ≠ 0 then jsRound (qdiv (tc : ℚ) (tn : ℚ)) else 100) ∧
      (if tn ≠ 0 then jsRound (qdiv (tc : ℚ) (tn : ℚ)) else 100) ≤ 100
    by_cases hz : tn = 0
    · rw [if_neg (by simp [hz])]
      norm_num
    · rw [if_pos hz, qdiv_eq]
      have htc0 : 0 ≤ tc := by
        rw [htc]
        apply List.sum_nonneg
        intro x hx
        obtain ⟨q, hq, rfl⟩ := List.mem_map.mp hx
        rw [contribC]
        by_cases hig : q.1 ∈ cfg.ignore
        · rw [if_pos hig]
        · rw [if_neg hig]
          exact mul_nonneg (le_min (by norm_num) (hcov q hq).1)
            (Int.natCast_nonneg _)
      have htcN : tc ≤ 100 * (tn : ℤ) := by
        rw [htc, htn]
        have hpt : ∀ q ∈ es, contribC cfg q ≤ 100 * ((contribN cfg q : ℕ) : ℤ) := by
          intro q hq
          rw [contribC, contribN]
          by_cases hig : q.1 ∈ cfg.ignore
          · rw [if_pos hig, if_pos hig]
            norm_num
          · rw [if_neg hig, if_neg hig]
            exact mul_le_mul_of_nonneg_right (min_le_left _ _)
              (Int.natCast_nonneg _)
        calc (es.map (contribC cfg)).sum
            ≤ (es.map (fun q => 100 * ((contribN cfg q : ℕ) : ℤ))).sum :=
              List.sum_le_sum hpt
          _ = 100 * (es.map (fun q => ((contribN cfg q : ℕ) : ℤ))).sum :=
              List.sum_map_mul_left _ _ _
          _ = 100 * (((es.map (contribN cfg)).sum : ℕ) : ℤ) := by
              rw [Nat.cast_list_sum, List.map_map]
              rfl
      have hpos : (0 : ℚ) < (tn : ℚ) := by
        exact_mod_cast Nat.pos_of_ne_zero hz
      apply jsRound_bounds
      · push_cast
        apply div_nonneg _ (le_of_lt hpos)
        exact_mod_cast htc0
      · push_cast
        rw [div_le_iff₀ hpos]
        calc ((tc : ℤ) : ℚ) ≤ ((100 * (tn : ℤ) : ℤ) : ℚ) := by exact_mod_cast htcN
          _ = 100 * (tn : ℚ) := by push_cast; ring
  · intro p hp
    apply hcov
    simpa [assemble] using hp

/-- C8 witness: the concrete full-coverage scan satisfies the achieved
    bounds. -/
theorem c8_witness : 0 ≤ resC1W.summary.achieved ∧ resC1W.summary.achieved ≤ 100 :=
  (c8_bounds (jsEnv metaF1None) cfgBase anChrome [fileX] resC1W
    (by decide) (by rfl)).1

/-- C8 counterexample: a distribution with a negative firefox share yields a
    recorded coverage of 175, outside the range 0..100. -/
theorem c8_counterexample :
    (featOf (scanProject (jsEnv metaF1Widely) cfgBase anNegFirefox [fileX]) "f1").map
        (fun u => u.coverage) = Option.some (175 : ℤ) ∧
    ¬((175 : ℤ) ≤ 100) :=
  ⟨by decide, by decide⟩

end Flightdeck
